import Mathlib

/-!
Verification of the box-conversion, dataset-splitting and labeling logic of the
ImageToForm model-training scripts.  The Python sources are shallowly embedded:
Python floats are modelled as exact rationals, Python int() as truncation toward
zero, Python round() as round-half-to-even, and the 6-decimal textual formatting
of YOLO label lines as rounding to the nearest multiple of 10^-6.
-/

/-- Model of Python round(): round half to even (as used by the CPython builtin). -/
def pyRound (q : ℚ) : ℤ :=
  if q - ⌊q⌋ < 1/2 then ⌊q⌋
  else if 1/2 < q - ⌊q⌋ then ⌊q⌋ + 1
  else if ⌊q⌋ % 2 = 0 then ⌊q⌋ else ⌊q⌋ + 1

/-- Model of Python int() applied to a float: truncation toward zero. -/
def truncInt (q : ℚ) : ℤ := if q < 0 then -⌊-q⌋ else ⌊q⌋

/-- Rounding of a value to 6 decimal digits, the effect of the percent .6f
formatting in yolo_coord_conversion followed by re-parsing the decimal text. -/
def r6 (q : ℚ) : ℚ := (pyRound (q * 1000000) : ℚ) / 1000000

/-- Clamp of a rational to the unit interval, as in lines 39-40 of
generate_yolo_data.py. -/
def clamp01 (q : ℚ) : ℚ := max 0 (min q 1)

/-- Embedding of yolo_coord_conversion (generate_yolo_data.py, lines 29-42).
Input is a pixel corner box (xmin, ymin, xmax, ymax) and the image size; the
output models the formatted string as the 6-decimal-rounded center-size
quadruple, or none where the source returns None. -/
def yolo_coord_conversion : ℤ × ℤ × ℤ × ℤ → ℤ → ℤ → Option (ℚ × ℚ × ℚ × ℚ)
  | (bxmin, bymin, bxmax, bymax), img_width, img_height =>
    if img_width ≤ 0 ∨ img_height ≤ 0 then none
    else
      let xmin := max 0 bxmin
      let ymin := max 0 bymin
      let xmax := min img_width bxmax
      let ymax := min img_height bymax
      if xmax ≤ xmin ∨ ymax ≤ ymin then none
      else
        let x_center := clamp01 (((xmin + xmax : ℤ) : ℚ) / 2 / (img_width : ℚ))
        let y_center := clamp01 (((ymin + ymax : ℤ) : ℚ) / 2 / (img_height : ℚ))
        let width := clamp01 (((xmax - xmin : ℤ) : ℚ) / (img_width : ℚ))
        let height := clamp01 (((ymax - ymin : ℤ) : ℚ) / (img_height : ℚ))
        if width ≤ 0 ∨ height ≤ 0 then none
        else some (r6 x_center, r6 y_center, r6 width, r6 height)

/-- Embedding of paligemma_to_pixels (generate_yolo_data.py, lines 44-52).
The input box is in VLM order (ymin, xmin, ymax, xmax), normalized 0-1000. -/
def paligemma_to_pixels : ℤ × ℤ × ℤ × ℤ → ℤ → ℤ → Option (ℤ × ℤ × ℤ × ℤ)
  | (ymin_norm, xmin_norm, ymax_norm, xmax_norm), img_width, img_height =>
    if img_width ≤ 0 ∨ img_height ≤ 0 then none
    else
      let ymin_c := max 0 (min ymin_norm 1000)
      let xmin_c := max 0 (min xmin_norm 1000)
      let ymax_c := max 0 (min ymax_norm 1000)
      let xmax_c := max 0 (min xmax_norm 1000)
      let xmin := pyRound ((xmin_c : ℚ) / 1000 * (img_width : ℚ))
      let ymin := pyRound ((ymin_c : ℚ) / 1000 * (img_height : ℚ))
      let xmax := pyRound ((xmax_c : ℚ) / 1000 * (img_width : ℚ))
      let ymax := pyRound ((ymax_c : ℚ) / 1000 * (img_height : ℚ))
      if xmax ≤ xmin ∨ ymax ≤ ymin then none
      else some (xmin, ymin, xmax, ymax)

/-- Embedding of yolo_to_pixels (draw_yolo_boxes.py, lines 9-47).  The input is
a YOLO-normalized center-size box as parsed back from a label file. -/
def yolo_to_pixels : ℚ × ℚ × ℚ × ℚ → ℤ → ℤ → Option (ℤ × ℤ × ℤ × ℤ)
  | (x_center, y_center, width, height), img_width, img_height =>
    let box_width := width * (img_width : ℚ)
    let box_height := height * (img_height : ℚ)
    let center_x_pixel := x_center * (img_width : ℚ)
    let center_y_pixel := y_center * (img_height : ℚ)
    let xmin := max 0 (truncInt (center_x_pixel - box_width / 2))
    let ymin := max 0 (truncInt (center_y_pixel - box_height / 2))
    let xmax := min img_width (truncInt (center_x_pixel + box_width / 2))
    let ymax := min img_height (truncInt (center_y_pixel + box_height / 2))
    if xmax ≤ xmin ∨ ymax ≤ ymin then none
    else some (xmin, ymin, xmax, ymax)

/-- Clamp of a VLM coordinate to the interval 0-1000, as the spec describes. -/
def vlmClamp (c : ℤ) : ℤ := max 0 (min c 1000)

/-- Modelled from the spec wording of pixel_from_vlm: each VLM coordinate is
clamped to 0-1000 and then scaled by round of coordinate / 1000 times the
image dimension. -/
def vlmScale (c dim : ℤ) : ℤ := pyRound ((vlmClamp c : ℚ) / 1000 * (dim : ℚ))

/-- Modelled from the spec: pixel_from_vlm as the claim describes it, written
independently of paligemma_to_pixels for comparison.  Input in the VLM order
(ymin, xmin, ymax, xmax). -/
def pixel_from_vlm_spec : ℤ × ℤ × ℤ × ℤ → ℤ → ℤ → Option (ℤ × ℤ × ℤ × ℤ)
  | (ymin_n, xmin_n, ymax_n, xmax_n), img_width, img_height =>
    if img_width ≤ 0 ∨ img_height ≤ 0 then none
    else
      let xmin := vlmScale xmin_n img_width
      let ymin := vlmScale ymin_n img_height
      let xmax := vlmScale xmax_n img_width
      let ymax := vlmScale ymax_n img_height
      if xmax ≤ xmin ∨ ymax ≤ ymin then none
      else some (xmin, ymin, xmax, ymax)

/-! ## Dataset splitter (generate_yolo_data.py, main, lines 238-276) -/

/-- The train fraction 0.70 from line 23 of generate_yolo_data.py. -/
def TRAIN_RATIO : ℚ := 70 / 100

/-- The validation fraction 0.15 from line 24 of generate_yolo_data.py. -/
def VAL_RATIO : ℚ := 15 / 100

/-- Embedding of the per-group split-count computation (lines 252-259): raw
ceil counts followed by the three-branch edge-case adjustment.  The result is
the triple (n_train, n_val, n_test). -/
def split_group_counts (n_images : ℕ) : ℤ × ℤ × ℤ :=
  let n_train : ℤ := ⌈(n_images : ℚ) * TRAIN_RATIO⌉
  let n_val : ℤ := ⌈(n_images : ℚ) * VAL_RATIO⌉
  if 2 < n_images ∧ (n_images : ℤ) - 1 ≤ n_train then ((n_images : ℤ) - 2, 1, 1)
  else if 1 < n_images ∧ n_train = (n_images : ℤ) then ((n_images : ℤ) - 1, 1, 0)
  else
    let n_test : ℤ := (n_images : ℤ) - n_train - n_val
    if n_test < 0 then (n_train, (n_images : ℤ) - n_train, 0)
    else (n_train, n_val, n_test)

/-- The claimed split policy, with the two ceilings written as integer ceiling
divisions: ceil of 7n/10 is (7n+9)/10 and ceil of 3n/20 is (3n+19)/20. -/
def split_group_counts_spec (n : ℕ) : ℤ × ℤ × ℤ :=
  let n_train : ℤ := ((7 * n + 9) / 10 : ℕ)
  let n_val : ℤ := ((3 * n + 19) / 20 : ℕ)
  if 2 < n ∧ (n : ℤ) - 1 ≤ n_train then ((n : ℤ) - 2, 1, 1)
  else if 1 < n ∧ n_train = (n : ℤ) then ((n : ℤ) - 1, 1, 0)
  else
    let n_test : ℤ := (n : ℤ) - n_train - n_val
    if n_test < 0 then (n_train, (n : ℤ) - n_train, 0)
    else (n_train, n_val, n_test)

/-- The three split names used for the output directory layout. -/
inductive Split
  | train
  | valid
  | test
deriving DecidableEq, Repr

/-- Embedding of one assignment loop of lines 264-275: run the loop body k
times from position idx, appending the element at the current index when the
bounds check passes.  Returns the assignments made and the final index. -/
def assignCount {α : Type} (l : List α) (s : Split) : ℕ → ℕ → List (Split × α) × ℕ
  | 0, idx => ([], idx)
  | k + 1, idx =>
    if h : idx < l.length then
      let rest := assignCount l s k (idx + 1)
      ((s, l.get ⟨idx, h⟩) :: rest.1, rest.2)
    else assignCount l s k idx

/-- Embedding of the full split assignment (lines 262-275): the three count
loops run in order over the shuffled group, sharing the running index.  A
negative count gives an empty range, as in Python. -/
def split_group_assign {α : Type} (l : List α) (c : ℤ × ℤ × ℤ) : List (Split × α) :=
  let r1 := assignCount l Split.train c.1.toNat 0
  let r2 := assignCount l Split.valid c.2.1.toNat r1.2
  let r3 := assignCount l Split.test c.2.2.toNat r2.2
  r1.1 ++ r2.1 ++ r3.1

/-! ## Detector output parsing (paligemma_detector.py) -/

/-- Python str.lower on one code point: ASCII uppercase letters move down by
32, everything else is unchanged.  Labels are modelled as code-point lists. -/
def lowerCode (c : ℕ) : ℕ := if 65 ≤ c ∧ c ≤ 90 then c + 32 else c

/-- Python str.lower over a label. -/
def pyLower (s : List ℕ) : List ℕ := s.map lowerCode

/-- The whitespace code points stripped by Python str.strip. -/
def isSpaceCode (c : ℕ) : Bool :=
  decide (c = 32 ∨ c = 9 ∨ c = 10 ∨ c = 13 ∨ c = 11 ∨ c = 12)

/-- Python str.strip over a label: drop whitespace from both ends. -/
def pyStrip (s : List ℕ) : List ℕ :=
  ((s.dropWhile isSpaceCode).reverse.dropWhile isSpaceCode).reverse

/-- Code points of a literal string. -/
def strCodes (s : String) : List ℕ := s.data.map Char.toNat

/-- One regex match of the loc-quadruple pattern in parse_all_detections: the
four location groups and the raw label group.  The re module is an external
collaborator, so its per-segment outcome is an input of the model. -/
structure LocMatch where
  ymin : ℕ
  xmin : ℕ
  ymax : ℕ
  xmax : ℕ
  raw_label : List ℕ
deriving DecidableEq, Repr

/-- A detection as parsed from the decoded model output. -/
structure ParsedDetection where
  label : List ℕ
  box : ℤ × ℤ × ℤ × ℤ
deriving DecidableEq, Repr

/-- Embedding of parse_all_detections (paligemma_detector.py, lines 50-74):
each nonempty stripped segment of the decoded output either fails the regex
search (none) or yields a match contributing one detection, whose label is
the stripped and lowercased raw label and whose box is the integer quadruple
in y-before-x order. -/
def parse_all_detections (segments : List (Option LocMatch)) : List ParsedDetection :=
  segments.filterMap (fun seg => seg.map (fun m =>
    { label := pyLower (pyStrip m.raw_label),
      box := ((m.ymin : ℤ), (m.xmin : ℤ), (m.ymax : ℤ), (m.xmax : ℤ)) }))

/-- A detection as returned to the labeler, with the image size attached. -/
structure Detection where
  label : List ℕ
  box : ℤ × ℤ × ℤ × ℤ
  img_width : ℤ
  img_height : ℤ
deriving DecidableEq, Repr

/-- The possible fates of one call of get_detections_from_image, one per
branch of paligemma_detector.py lines 96-175. -/
inductive DetectorEvent
  | initFailure
  | fileNotFound
  | loadFailure
  | noClassesRequested
  | inputProcFailure
  | generateFailure
  | success (segments : List (Option LocMatch)) (img_width img_height : ℤ)

/-- Embedding of get_detections_from_image: every failure branch of the
source returns the empty list (lines 101, 104, 111, 120, 123, 126, 131, 145
and 162), and the success path parses the decoded output and attaches the
image dimensions (lines 164-175). -/
def get_detections_from_image : DetectorEvent → List Detection
  | .success segments w h =>
      (parse_all_detections segments).map (fun d =>
        { label := d.label, box := d.box, img_width := w, img_height := h })
  | _ => []

/-! ## Labeler (generate_yolo_data.py, process_image_batch, lines 56-184) -/

/-- The class catalog of line 21, as code-point lists. -/
def CLASSES : List (List ℕ) :=
  [strCodes "flip-flops", strCodes "helmet", strCodes "glove", strCodes "boots"]

/-- Index lookup in a list of names starting at a given index: the embedding
of the CLASS_MAP dictionary built by enumerate on line 22. -/
def classMapAux (l : List (List ℕ)) (idx : ℕ) (name : List ℕ) : Option ℕ :=
  match l with
  | [] => none
  | c :: rest => if c = name then some idx else classMapAux rest (idx + 1) name

/-- CLASS_MAP: class name to class id. -/
def CLASS_MAP (name : List ℕ) : Option ℕ := classMapAux CLASSES 0 name

/-- The per-image outcomes named by the spec. -/
inductive Outcome
  | Labeled
  | SkippedIdempotent
  | SkippedMissingSource
  | Error
deriving DecidableEq, Repr

/-- The six counters of process_image_batch (lines 58-60). -/
structure Tally where
  processed : ℕ
  copied : ℕ
  skipped : ℕ
  errors : ℕ
  no_target_warnings : ℕ
  required_missing_warnings : ℕ
deriving DecidableEq, Repr

/-- Componentwise addition of tallies. -/
def Tally.add (t u : Tally) : Tally :=
  ⟨t.processed + u.processed, t.copied + u.copied, t.skipped + u.skipped,
    t.errors + u.errors, t.no_target_warnings + u.no_target_warnings,
    t.required_missing_warnings + u.required_missing_warnings⟩

/-- One line of a label file: class id and the four 6-decimal YOLO values. -/
abbrev YoloLine := ℕ × (ℚ × ℚ × ℚ × ℚ)

/-- The durable files of one image slot in the output tree: the label file
with its lines, and whether the image copy exists. -/
structure FsState where
  labelFile : Option (List YoloLine)
  imgExists : Bool
deriving DecidableEq, Repr

/-- File mutations performed while processing one image. -/
inductive FsWrite
  | writeLabel (lines : List YoloLine)
  | copyImage
  | deleteLabel
  | deleteImage
deriving DecidableEq, Repr

/-- How the write phase of lines 163-177 can go for one image: both writes
succeed, the label write raises (leftover tells whether a partly written
label file exists), or the image copy raises (leftover tells whether a
partly copied image exists). -/
inductive WriteResult
  | ok
  | labelRaises (leftover : Bool)
  | copyRaises (leftover : Bool)
deriving DecidableEq, Repr

/-- The environment of one image: everything outside the durable output state
that lines 65-177 consult.  The two policy fields are the per-directory
lookups in single_class_dirs and required_pairs; detections is the detector
response as the caller receives it, with none modelling the hypothetical
distinguishable failure that line 105 tests for. -/
structure TaskEnv where
  sourceExists : Bool
  expectedLabel : Option (List ℕ)
  requiredPair : Option (List ℕ × List ℕ)
  detections : Option (List Detection)
  repairCopySucceeds : Bool
  write : WriteResult
deriving DecidableEq, Repr

/-- Result of processing one image. -/
structure StepResult where
  outcome : Outcome
  tally : Tally
  state : FsState
  writes : List FsWrite
deriving DecidableEq, Repr

/-- The label-enforcement decision of lines 115-126 for one detection: a
single-class directory forces its label, a required-pair directory keeps only
its two labels, and otherwise any catalog label is kept. -/
def resolveLabel (env : TaskEnv) (pali_label : List ℕ) : Option (List ℕ) :=
  match env.expectedLabel with
  | some e => some e
  | none =>
    match env.requiredPair with
    | some (c1, c2) => if pali_label = c1 ∨ pali_label = c2 then some pali_label else none
    | none => if (CLASS_MAP pali_label).isSome then some pali_label else none

/-- The body of the detection loop of lines 114-141: resolve the label, run
the two conversions, and on success append the label line and class id. -/
def stepDet (env : TaskEnv) (acc : List YoloLine × List ℕ) (det : Detection) :
    List YoloLine × List ℕ :=
  match resolveLabel env det.label with
  | none => acc
  | some lbl =>
    match CLASS_MAP lbl with
    | none => acc
    | some class_id =>
      match paligemma_to_pixels det.box det.img_width det.img_height with
      | none => acc
      | some pixel_box =>
        match yolo_coord_conversion pixel_box det.img_width det.img_height with
        | none => acc
        | some yc => (acc.1 ++ [(class_id, yc)], acc.2 ++ [class_id])

/-- The detection loop over the whole detector response. -/
def buildLines (env : TaskEnv) (dets : List Detection) : List YoloLine × List ℕ :=
  dets.foldl (stepDet env) ([], [])

/-- The required-pair warning check of lines 149-161: one warning when either
required class id is absent from the final label lines. -/
def requiredMissingCount (env : TaskEnv) (ids : List ℕ) : ℕ :=
  match env.requiredPair with
  | none => 0
  | some (c1, c2) =>
    match CLASS_MAP c1 with
    | none => 0
    | some id1 =>
      match CLASS_MAP c2 with
      | none => 0
      | some id2 => if id1 ∈ ids ∧ id2 ∈ ids then 0 else 1

/-- Embedding of the loop body of process_image_batch (lines 65-177) for one
image, the process_image operation of the spec.  The outcome names the branch
taken: the idempotency skip with its repair copy (74-82), the missing-source
skip (83-85), the detector-failure check (105-108), the success path
(163-168) and the write-failure rollback (169-177). -/
def process_image (env : TaskEnv) (st : FsState) : StepResult :=
  if st.labelFile.isSome then
    if ¬ st.imgExists ∧ env.sourceExists then
      if env.repairCopySucceeds then
        ⟨.SkippedIdempotent, ⟨0, 1, 1, 0, 0, 0⟩, ⟨st.labelFile, true⟩, [.copyImage]⟩
      else ⟨.SkippedIdempotent, ⟨0, 0, 1, 0, 0, 0⟩, st, []⟩
    else ⟨.SkippedIdempotent, ⟨0, 0, 1, 0, 0, 0⟩, st, []⟩
  else if ¬ env.sourceExists then
    ⟨.SkippedMissingSource, ⟨0, 0, 1, 0, 0, 0⟩, st, []⟩
  else
    match env.detections with
    | none => ⟨.Error, ⟨0, 0, 0, 1, 0, 0⟩, st, []⟩
    | some dets =>
      let built := buildLines env dets
      let noTarget : ℕ := if built.1.isEmpty then 1 else 0
      let reqMissing := requiredMissingCount env built.2
      match env.write with
      | .ok =>
        ⟨.Labeled, ⟨1, 1, 0, 0, noTarget, reqMissing⟩, ⟨some built.1, true⟩,
          [.writeLabel built.1, .copyImage]⟩
      | .labelRaises leftover =>
        ⟨.Error, ⟨0, 0, 0, 1, noTarget, reqMissing⟩, ⟨none, false⟩,
          (if leftover then [.deleteLabel] else []) ++
            (if st.imgExists then [.deleteImage] else [])⟩
      | .copyRaises leftover =>
        ⟨.Error, ⟨0, 0, 0, 1, noTarget, reqMissing⟩, ⟨none, false⟩,
          [.writeLabel built.1, .deleteLabel] ++
            (if st.imgExists ∨ leftover then [.deleteImage] else [])⟩

/-- Embedding of the batch loop: totals accumulate and every image of the
batch is processed in order. -/
def process_image_batch : List (TaskEnv × FsState) → Tally × List StepResult
  | [] => (⟨0, 0, 0, 0, 0, 0⟩, [])
  | (env, st) :: rest =>
    let r := process_image env st
    let rr := process_image_batch rest
    (r.tally.add rr.1, r :: rr.2)

/-- The rational ceiling of 0.70 times n is the integer ceiling division. -/
lemma ceil_train_ratio (n : ℕ) : ⌈(n : ℚ) * TRAIN_RATIO⌉ = (((7 * n + 9) / 10 : ℕ) : ℤ) := by
  have h := Nat.div_add_mod (7 * n + 9) 10
  set k := (7 * n + 9) / 10 with hk
  set r := (7 * n + 9) % 10 with hr
  have hrlt : r < 10 := Nat.mod_lt _ (by norm_num)
  have key : (10 : ℚ) * k + r = 7 * n + 9 := by exact_mod_cast congrArg (Nat.cast (R := ℚ)) h
  have hr0 : (0 : ℚ) ≤ r := by positivity
  have hr9 : (r : ℚ) ≤ 9 := by exact_mod_cast Nat.lt_succ_iff.mp hrlt
  rw [Int.ceil_eq_iff]
  rw [ TRAIN_RATIO]
  push_cast
  constructor
  · linarith
  · linarith

/-- The rational ceiling of 0.15 times n is the integer ceiling division. -/
lemma ceil_val_ratio (n : ℕ) : ⌈(n : ℚ) * VAL_RATIO⌉ = (((3 * n + 19) / 20 : ℕ) : ℤ) := by
  have h := Nat.div_add_mod (3 * n + 19) 20
  set k := (3 * n + 19) / 20 with hk
  set r := (3 * n + 19) % 20 with hr
  have hrlt : r < 20 := Nat.mod_lt _ (by norm_num)
  have key : (20 : ℚ) * k + r = 3 * n + 19 := by exact_mod_cast congrArg (Nat.cast (R := ℚ)) h
  have hr0 : (0 : ℚ) ≤ r := by positivity
  have hr19 : (r : ℚ) ≤ 19 := by exact_mod_cast Nat.lt_succ_iff.mp hrlt
  rw [Int.ceil_eq_iff]
  rw [ VAL_RATIO]
  push_cast
  constructor
  · linarith
  · linarith

/-- The split-count computation agrees with the claimed integer-arithmetic
policy for every group size. -/
lemma split_group_counts_eq_spec (n : ℕ) : split_group_counts n = split_group_counts_spec n := by
  simp only [split_group_counts, split_group_counts_spec, ceil_train_ratio, ceil_val_ratio]

/-- An assignment loop started at or past the end of the list assigns
nothing and leaves the index unchanged. -/
lemma assignCount_out {α : Type} (l : List α) (s : Split) (k idx : ℕ)
    (h : ¬ idx < l.length) : assignCount l s k idx = ([], idx) := by
  induction k with
  | zero => rfl
  | succ k ih => rw [assignCount, dif_neg h, ih]

/-- Closed form of one assignment loop: starting inside the list, it takes the
next k elements and moves the index to min (idx + k) (length). -/
lemma assignCount_eq {α : Type} (l : List α) (s : Split) (k : ℕ) :
    ∀ idx : ℕ, idx ≤ l.length →
      assignCount l s k idx =
        (((l.drop idx).take k).map (fun a => (s, a)), min (idx + k) l.length) := by
  induction k with
  | zero =>
    intro idx hidx
    simp [assignCount, Nat.min_eq_left hidx]
  | succ k ih =>
    intro idx hidx
    rcases lt_or_eq_of_le hidx with hlt | heq
    · rw [assignCount, dif_pos hlt, ih (idx + 1) hlt]
      rw [List.drop_eq_getElem_cons hlt]
      simp only [List.take_succ_cons, List.map_cons, List.get_eq_getElem]
      exact congrArg (Prod.mk _) (by omega)
    · rw [assignCount_out l s (k + 1) idx (by omega)]
      have hdrop : l.drop idx = [] := List.drop_eq_nil_of_le (by omega)
      rw [hdrop]
      simp
      omega

/-- The adjusted counts are nonnegative and sum to the group size. -/
lemma split_group_counts_sum (n : ℕ) (hn : 0 < n) :
    0 ≤ (split_group_counts n).1 ∧ 0 ≤ (split_group_counts n).2.1 ∧
      0 ≤ (split_group_counts n).2.2 ∧
      (split_group_counts n).1 + (split_group_counts n).2.1 +
        (split_group_counts n).2.2 = (n : ℤ) := by
  have h10 := Nat.div_add_mod (7 * n + 9) 10
  have h10lt : (7 * n + 9) % 10 < 10 := Nat.mod_lt _ (by norm_num)
  have h20 := Nat.div_add_mod (3 * n + 19) 20
  have h20lt : (3 * n + 19) % 20 < 20 := Nat.mod_lt _ (by norm_num)
  simp only [split_group_counts_eq_spec, split_group_counts_spec]
  split_ifs <;> simp_all <;> omega

/-- The assignment loops cover the shuffled group exactly: reading the images
back off the assignment list returns the group in order. -/
lemma split_group_assign_covers {α : Type} (l : List α) (h : l ≠ []) :
    (split_group_assign l (split_group_counts l.length)).map Prod.snd = l := by
  have hpos : 0 < l.length := List.length_pos.mpr h
  obtain ⟨h1, h2, h3, h4⟩ := split_group_counts_sum l.length hpos
  set cnt := split_group_counts l.length with hcnt
  have ha : cnt.1.toNat ≤ l.length := by omega
  have hab : cnt.1.toNat + cnt.2.1.toNat ≤ l.length := by omega
  have habc : cnt.1.toNat + cnt.2.1.toNat + cnt.2.2.toNat = l.length := by omega
  simp only [split_group_assign]
  rw [assignCount_eq l Split.train cnt.1.toNat 0 (by omega)]
  have e1 : min (0 + cnt.1.toNat) l.length = cnt.1.toNat := by omega
  rw [e1]
  rw [assignCount_eq l Split.valid cnt.2.1.toNat cnt.1.toNat ha]
  have e2 : min (cnt.1.toNat + cnt.2.1.toNat) l.length = cnt.1.toNat + cnt.2.1.toNat := by
    omega
  rw [e2]
  rw [assignCount_eq l Split.test cnt.2.2.toNat (cnt.1.toNat + cnt.2.1.toNat) hab]
  simp only [List.map_append, List.map_map]
  have g1 : (Prod.snd ∘ fun a : α => (Split.train, a)) = id := rfl
  have g2 : (Prod.snd ∘ fun a : α => (Split.valid, a)) = id := rfl
  have g3 : (Prod.snd ∘ fun a : α => (Split.test, a)) = id := rfl
  rw [g1, g2, g3, List.map_id, List.map_id, List.map_id, List.drop_zero]
  have hc3 : (l.drop (cnt.1.toNat + cnt.2.1.toNat)).take cnt.2.2.toNat =
      l.drop (cnt.1.toNat + cnt.2.1.toNat) := by
    apply List.take_of_length_le
    rw [List.length_drop]
    omega
  rw [hc3, List.append_assoc, List.drop_take_append_drop, List.take_append_drop]

/-- Claim C2: for every non-empty group the split counts follow exactly the
stated policy (raw ceilings of 0.70 n and 0.15 n, the edge-case branch for
2 < n with n_train at least n - 1, then the branch for n_train = n, then the
clamped remainder); in particular n = 10 gives (7, 2, 1), n = 2 gives
(1, 1, 0) and n = 1 gives (1, 0, 0). -/
theorem split_group_counts_policy :
    (∀ n : ℕ, 0 < n → split_group_counts n = split_group_counts_spec n) ∧
    split_group_counts 10 = (7, 2, 1) ∧ split_group_counts 2 = (1, 1, 0) ∧
    split_group_counts 1 = (1, 0, 0) := by
  refine ⟨fun n _ => split_group_counts_eq_spec n, ?_, ?_, ?_⟩ <;>
    rw [split_group_counts_eq_spec] <;> decide

/-- Witness for C2 at the concrete group size 4. -/
theorem split_group_counts_policy_witness :
    0 < 4 ∧ split_group_counts 4 = split_group_counts_spec 4 :=
  ⟨by decide, split_group_counts_policy.1 4 (by decide)⟩

/-- Claim C3: for every non-empty group, the assignment loops place each of
the group's shuffled images in exactly one of train, val and test: mapping
the assignment list back to its images returns the group itself, so no image
is omitted and none is assigned twice. -/
theorem split_assignment_exactly_one {α : Type} (l : List α) (h : l ≠ []) :
    (split_group_assign l (split_group_counts l.length)).map Prod.snd = l :=
  split_group_assign_covers l h

/-- Witness for C3 on a concrete three-image group. -/
theorem split_assignment_exactly_one_witness :
    ([0, 1, 2] : List ℕ) ≠ [] ∧
      (split_group_assign [0, 1, 2] (split_group_counts 3)).map Prod.snd = [0, 1, 2] :=
  ⟨by decide, split_assignment_exactly_one [0, 1, 2] (by decide)⟩

/-- Counterexample to claim C8 as stated: at n = 7 the raw ratio arithmetic
starves the test split (raw n_test is 0) and the adjusted counts still give
the test split zero images. -/
theorem split_starvation_counterexample :
    3 ≤ 7 ∧
      (7 : ℤ) - ⌈((7 : ℕ) : ℚ) * TRAIN_RATIO⌉ - ⌈((7 : ℕ) : ℚ) * VAL_RATIO⌉ ≤ 0 ∧
      (split_group_counts 7).2.2 = 0 := by
  refine ⟨by norm_num, ?_, ?_⟩
  · rw [ceil_train_ratio, ceil_val_ratio]; decide
  · rw [split_group_counts_eq_spec]; decide

/-- Claim C8 (amended): for every group of n images with 3 ≤ n and n not 7, 8
or 9, whenever the raw ratio arithmetic would leave val or test with zero
images, the adjusted counts give val and test each at least one image.  At
n = 7, 8, 9 the adjustment does not repair the starved test split. -/
theorem split_min_val_test_amended (n : ℕ) (h3 : 3 ≤ n)
    (h7 : n ≠ 7) (h8 : n ≠ 8) (h9 : n ≠ 9)
    (hstarve : ⌈(n : ℚ) * VAL_RATIO⌉ ≤ 0 ∨
      (n : ℤ) - ⌈(n : ℚ) * TRAIN_RATIO⌉ - ⌈(n : ℚ) * VAL_RATIO⌉ ≤ 0) :
    1 ≤ (split_group_counts n).2.1 ∧ 1 ≤ (split_group_counts n).2.2 := by
  rw [ceil_train_ratio, ceil_val_ratio] at hstarve
  rw [split_group_counts_eq_spec]
  simp only [split_group_counts_spec]
  split_ifs <;> simp_all <;> omega

/-! ## Claim C7: the VLM-to-pixel conversion -/

/-- Python round of an integer value is that integer. -/
lemma pyRound_intCast (z : ℤ) : pyRound (z : ℚ) = z := by
  unfold pyRound
  rw [Int.floor_intCast, sub_self]
  rw [if_pos (by norm_num)]

/-- Claim C7: paligemma_to_pixels clamps each VLM coordinate to 0-1000, scales
it by round of coordinate over 1000 times the dimension, and returns absent
exactly when the resulting box is degenerate; in particular the full box
(0, 0, 1000, 1000) maps to the full image for all positive dimensions. -/
theorem pixel_from_vlm_clamp_round :
    (∀ (box : ℤ × ℤ × ℤ × ℤ) (img_width img_height : ℤ),
        paligemma_to_pixels box img_width img_height =
          pixel_from_vlm_spec box img_width img_height) ∧
    (∀ img_width img_height : ℤ, 0 < img_width → 0 < img_height →
        paligemma_to_pixels (0, 0, 1000, 1000) img_width img_height =
          some (0, 0, img_width, img_height)) := by
  constructor
  · rintro ⟨a, b, c, d⟩ W H
    rfl
  · intro W H hW hH
    simp only [paligemma_to_pixels]
    rw [if_neg (by omega)]
    have e1 : max 0 (min (0 : ℤ) 1000) = 0 := by decide
    have e2 : max 0 (min (1000 : ℤ) 1000) = 1000 := by decide
    simp only [e1, e2]
    have e3 : (((0 : ℤ) : ℚ)) / 1000 * (W : ℚ) = ((0 : ℤ) : ℚ) := by push_cast; ring
    have e3h : (((0 : ℤ) : ℚ)) / 1000 * (H : ℚ) = ((0 : ℤ) : ℚ) := by push_cast; ring
    have e4 : (((1000 : ℤ) : ℚ)) / 1000 * (W : ℚ) = (W : ℚ) := by push_cast; norm_num
    have e4h : (((1000 : ℤ) : ℚ)) / 1000 * (H : ℚ) = (H : ℚ) := by push_cast; norm_num
    rw [e3, e3h, e4, e4h, pyRound_intCast, pyRound_intCast, pyRound_intCast]
    rw [if_neg (by omega)]

/-- Witness for C7 at a concrete 448 by 448 image. -/
theorem pixel_from_vlm_clamp_round_witness :
    (0 : ℤ) < 448 ∧
      paligemma_to_pixels (0, 0, 1000, 1000) 448 448 = some (0, 0, 448, 448) :=
  ⟨by decide, pixel_from_vlm_clamp_round.2 448 448 (by decide) (by decide)⟩

/-! ## Claim C4: the YOLO roundtrip -/

/-- Python round moves a value by at most one half. -/
lemma pyRound_sub_le (q : ℚ) : |(pyRound q : ℚ) - q| ≤ 1/2 := by
  have h1 := Int.floor_le q
  have h2 := Int.lt_floor_add_one q
  unfold pyRound
  split_ifs with ha hb hc <;> rw [abs_le] <;> push_cast <;> constructor <;> linarith

/-- Rounding to six decimals moves a value by at most half of 10^-6. -/
lemma r6_err (q : ℚ) : |r6 q - q| ≤ 1/2000000 := by
  have h := pyRound_sub_le (q * 1000000)
  unfold r6
  have e : (pyRound (q * 1000000) : ℚ) / 1000000 - q
      = ((pyRound (q * 1000000) : ℚ) - q * 1000000) / 1000000 := by ring
  rw [e, abs_div, abs_of_pos (by norm_num : (0:ℚ) < 1000000)]
  rw [div_le_iff₀ (by norm_num : (0:ℚ) < 1000000)]
  calc |(pyRound (q * 1000000) : ℚ) - q * 1000000| ≤ 1/2 := h
    _ = 1/2000000 * 1000000 := by norm_num

/-- Truncation toward zero of a nonnegative value is the floor. -/
lemma truncInt_nonneg_eq_floor (q : ℚ) (h : 0 ≤ q) : truncInt q = ⌊q⌋ := by
  unfold truncInt
  rw [if_neg (not_lt.mpr h)]

/-- Truncation toward zero of a value strictly between -1 and 0 is zero. -/
lemma truncInt_neg_small (q : ℚ) (h1 : -1 < q) (h2 : q < 0) : truncInt q = 0 := by
  unfold truncInt
  rw [if_pos h2]
  have hfz : ⌊-q⌋ = 0 := by
    rw [Int.floor_eq_zero_iff]
    exact Set.mem_Ico.mpr ⟨by linarith, by linarith⟩
  rw [hfz, neg_zero]

/-- The unit-interval clamp is the identity on values already inside. -/
lemma clamp01_eq (q : ℚ) (h0 : 0 ≤ q) (h1 : q ≤ 1) : clamp01 q = q := by
  unfold clamp01
  rw [min_eq_left h1, max_eq_right h0]

/-- On a box strictly inside the image, yolo_coord_conversion succeeds and its
clamps are the identity, leaving only the 6-decimal rounding. -/
lemma yolo_conv_inside (m my M My W H : ℤ)
    (hm : 0 ≤ m) (hM : m < M) (hWM : M ≤ W)
    (hmy : 0 ≤ my) (hMy : my < My) (hHM : My ≤ H) :
    yolo_coord_conversion (m, my, M, My) W H =
      some (r6 (((m + M : ℤ) : ℚ) / 2 / (W : ℚ)),
            r6 (((my + My : ℤ) : ℚ) / 2 / (H : ℚ)),
            r6 (((M - m : ℤ) : ℚ) / (W : ℚ)),
            r6 (((My - my : ℤ) : ℚ) / (H : ℚ))) := by
  have hW0 : (0 : ℤ) < W := by omega
  have hH0 : (0 : ℤ) < H := by omega
  have hWQ : (0 : ℚ) < (W : ℚ) := by exact_mod_cast hW0
  have hHQ : (0 : ℚ) < (H : ℚ) := by exact_mod_cast hH0
  simp only [yolo_coord_conversion]
  rw [if_neg (by omega)]
  rw [max_eq_right hm, max_eq_right hmy, min_eq_right hWM, min_eq_right hHM]
  rw [if_neg (by omega)]
  have hxc : clamp01 (((m + M : ℤ) : ℚ) / 2 / (W : ℚ)) = ((m + M : ℤ) : ℚ) / 2 / (W : ℚ) := by
    apply clamp01_eq
    · apply div_nonneg (div_nonneg ?_ (by norm_num)) hWQ.le
      exact_mod_cast (by omega : (0 : ℤ) ≤ m + M)
    · rw [div_div, div_le_one (by positivity)]
      exact_mod_cast (by omega : (m + M : ℤ) ≤ 2 * W)
  have hyc : clamp01 (((my + My : ℤ) : ℚ) / 2 / (H : ℚ)) = ((my + My : ℤ) : ℚ) / 2 / (H : ℚ) := by
    apply clamp01_eq
    · apply div_nonneg (div_nonneg ?_ (by norm_num)) hHQ.le
      exact_mod_cast (by omega : (0 : ℤ) ≤ my + My)
    · rw [div_div, div_le_one (by positivity)]
      exact_mod_cast (by omega : (my + My : ℤ) ≤ 2 * H)
  have hwpos : (0 : ℚ) < ((M - m : ℤ) : ℚ) / (W : ℚ) := by
    apply div_pos ?_ hWQ
    exact_mod_cast (by omega : (0 : ℤ) < M - m)
  have hhpos : (0 : ℚ) < ((My - my : ℤ) : ℚ) / (H : ℚ) := by
    apply div_pos ?_ hHQ
    exact_mod_cast (by omega : (0 : ℤ) < My - my)
  have hwc : clamp01 (((M - m : ℤ) : ℚ) / (W : ℚ)) = ((M - m : ℤ) : ℚ) / (W : ℚ) := by
    refine clamp01_eq _ hwpos.le ?_
    rw [div_le_one hWQ]
    exact_mod_cast (by omega : (M - m : ℤ) ≤ W)
  have hhc : clamp01 (((My - my : ℤ) : ℚ) / (H : ℚ)) = ((My - my : ℤ) : ℚ) / (H : ℚ) := by
    refine clamp01_eq _ hhpos.le ?_
    rw [div_le_one hHQ]
    exact_mod_cast (by omega : (My - my : ℤ) ≤ H)
  rw [hxc, hyc, hwc, hhc]
  rw [if_neg (by push_neg; exact ⟨hwpos, hhpos⟩)]

/-- One axis of the roundtrip bound: with the image dimension at most 1333333,
the truncated-and-clamped pixel ends the composite within one pixel of the
original coordinate, on both ends of the interval. -/
lemma roundtrip_axis (m M W : ℤ) (hm : 0 ≤ m) (hM : m < M) (hWM : M ≤ W)
    (hB : W ≤ 1333333) :
    |max 0 (truncInt (r6 (((m + M : ℤ) : ℚ) / 2 / (W : ℚ)) * (W : ℚ) -
        r6 (((M - m : ℤ) : ℚ) / (W : ℚ)) * (W : ℚ) / 2)) - m| ≤ 1 ∧
    |min W (truncInt (r6 (((m + M : ℤ) : ℚ) / 2 / (W : ℚ)) * (W : ℚ) +
        r6 (((M - m : ℤ) : ℚ) / (W : ℚ)) * (W : ℚ) / 2)) - M| ≤ 1 := by
  have hW0 : (0 : ℤ) < W := by omega
  have hWQ : (0 : ℚ) < (W : ℚ) := by exact_mod_cast hW0
  have hWB : (W : ℚ) ≤ 1333333 := by exact_mod_cast hB
  set c := ((m + M : ℤ) : ℚ) / 2 / (W : ℚ) with hcdef
  set w := ((M - m : ℤ) : ℚ) / (W : ℚ) with hwdef
  have hcW : c * (W : ℚ) = ((m + M : ℤ) : ℚ) / 2 := by
    rw [hcdef]; field_simp; ring
  have hwW : w * (W : ℚ) = ((M - m : ℤ) : ℚ) := by
    rw [hwdef]; field_simp
  have ha := r6_err c
  have hb := r6_err w
  set a := r6 c - c with hadef
  set b := r6 w - w with hbdef
  have hr6c : r6 c = c + a := by rw [hadef]; ring
  have hr6w : r6 w = w + b := by rw [hbdef]; ring
  have haZ : |a| ≤ 1/2000000 := ha
  have hbZ : |b| ≤ 1/2000000 := hb
  have haL : -(1/2000000) ≤ a ∧ a ≤ 1/2000000 := abs_le.mp haZ
  have hbL : -(1/2000000) ≤ b ∧ b ≤ 1/2000000 := abs_le.mp hbZ
  have ex1 : r6 c * (W : ℚ) - r6 w * (W : ℚ) / 2 = (m : ℚ) + (a - b / 2) * (W : ℚ) := by
    rw [hr6c, hr6w]
    have expand : (c + a) * (W : ℚ) - (w + b) * (W : ℚ) / 2
        = c * (W : ℚ) - w * (W : ℚ) / 2 + (a - b / 2) * (W : ℚ) := by ring
    rw [expand, hcW, hwW]
    push_cast
    ring
  have ex2 : r6 c * (W : ℚ) + r6 w * (W : ℚ) / 2 = (M : ℚ) + (a + b / 2) * (W : ℚ) := by
    rw [hr6c, hr6w]
    have expand : (c + a) * (W : ℚ) + (w + b) * (W : ℚ) / 2
        = c * (W : ℚ) + w * (W : ℚ) / 2 + (a + b / 2) * (W : ℚ) := by ring
    rw [expand, hcW, hwW]
    push_cast
    ring
  have hd1 : |(a - b / 2) * (W : ℚ)| < 1 := by
    rw [abs_mul, abs_of_nonneg hWQ.le]
    have h1 : |a - b / 2| ≤ 3/4000000 := by
      have t := abs_add a (-(b / 2))
      rw [abs_neg] at t
      have e : a - b / 2 = a + -(b / 2) := by ring
      rw [e]
      have hb2 : |b / 2| ≤ 1/4000000 := by
        rw [abs_div, abs_of_pos (by norm_num : (0:ℚ) < 2)]
        linarith
      linarith
    calc |a - b / 2| * (W : ℚ) ≤ 3/4000000 * 1333333 :=
          mul_le_mul h1 hWB hWQ.le (by norm_num)
      _ < 1 := by norm_num
  have hd2 : |(a + b / 2) * (W : ℚ)| < 1 := by
    rw [abs_mul, abs_of_nonneg hWQ.le]
    have h1 : |a + b / 2| ≤ 3/4000000 := by
      have t := abs_add a (b / 2)
      have hb2 : |b / 2| ≤ 1/4000000 := by
        rw [abs_div, abs_of_pos (by norm_num : (0:ℚ) < 2)]
        linarith
      linarith
    calc |a + b / 2| * (W : ℚ) ≤ 3/4000000 * 1333333 :=
          mul_le_mul h1 hWB hWQ.le (by norm_num)
      _ < 1 := by norm_num
  obtain ⟨hd1l, hd1r⟩ := abs_lt.mp hd1
  obtain ⟨hd2l, hd2r⟩ := abs_lt.mp hd2
  constructor
  · -- the low end
    rcases eq_or_lt_of_le hm with hm0 | hm1
    · -- m = 0: the argument lies strictly between -1 and 1
      have hm0x : m = 0 := hm0.symm
      subst hm0x
      rcases lt_or_le (r6 c * (W : ℚ) - r6 w * (W : ℚ) / 2) 0 with hneg | hpos
      · have hlo : -1 < r6 c * (W : ℚ) - r6 w * (W : ℚ) / 2 := by
          rw [ex1]
          push_cast
          linarith
        rw [truncInt_neg_small _ hlo hneg]
        decide
      · rw [truncInt_nonneg_eq_floor _ hpos]
        have hfl : ⌊r6 c * (W : ℚ) - r6 w * (W : ℚ) / 2⌋ = 0 := by
          rw [Int.floor_eq_zero_iff]
          refine Set.mem_Ico.mpr ⟨hpos, ?_⟩
          rw [ex1]
          push_cast
          linarith
        rw [hfl]
        decide
    · -- 1 ≤ m: the floor is m - 1 or m
      have hpos : (0 : ℚ) ≤ r6 c * (W : ℚ) - r6 w * (W : ℚ) / 2 := by
        rw [ex1]
        have h1m : (1 : ℚ) ≤ (m : ℚ) := by exact_mod_cast hm1
        linarith
      rw [truncInt_nonneg_eq_floor _ hpos]
      have hlow : m - 1 ≤ ⌊r6 c * (W : ℚ) - r6 w * (W : ℚ) / 2⌋ := by
        apply Int.le_floor.mpr
        rw [ex1]
        push_cast
        linarith
      have hhigh : ⌊r6 c * (W : ℚ) - r6 w * (W : ℚ) / 2⌋ ≤ m := by
        rw [← Int.lt_add_one_iff]
        apply Int.floor_lt.mpr
        rw [ex1]
        push_cast
        linarith
      rw [abs_le]
      constructor <;> omega
  · -- the high end
    have hM1 : (1 : ℤ) ≤ M := by omega
    have hMQ : (1 : ℚ) ≤ (M : ℚ) := by exact_mod_cast hM1
    have hpos : (0 : ℚ) ≤ r6 c * (W : ℚ) + r6 w * (W : ℚ) / 2 := by
      rw [ex2]
      linarith
    rw [truncInt_nonneg_eq_floor _ hpos]
    have hlow : M - 1 ≤ ⌊r6 c * (W : ℚ) + r6 w * (W : ℚ) / 2⌋ := by
      apply Int.le_floor.mpr
      rw [ex2]
      push_cast
      linarith
    have hhigh : ⌊r6 c * (W : ℚ) + r6 w * (W : ℚ) / 2⌋ ≤ M := by
      rw [← Int.lt_add_one_iff]
      apply Int.floor_lt.mpr
      rw [ex2]
      push_cast
      linarith
    have hmin : min W ⌊r6 c * (W : ℚ) + r6 w * (W : ℚ) / 2⌋
        = ⌊r6 c * (W : ℚ) + r6 w * (W : ℚ) / 2⌋ :=
      min_eq_right (by omega)
    rw [hmin, abs_le]
    constructor <;> omega

/-- Counterexample to claim C4 as stated: the pixel box (1, 1, 2, 2) lies
strictly inside a 3 by 3 image, yet converting it to YOLO text form and back
yields no box at all (the 6-decimal rounding of 1/3 shrinks the box so that
truncation collapses it), rather than a box within one pixel. -/
theorem yolo_roundtrip_counterexample :
    (0 : ℤ) ≤ 1 ∧ (1 : ℤ) < 2 ∧ (2 : ℤ) ≤ 3 ∧
      (yolo_coord_conversion (1, 1, 2, 2) 3 3).bind (fun q => yolo_to_pixels q 3 3) = none := by
  refine ⟨by decide, by decide, by decide, ?_⟩
  norm_num [yolo_coord_conversion, yolo_to_pixels, clamp01, r6, pyRound, truncInt]

/-- Claim C4 (amended): for every pixel box strictly inside the image bounds,
with both image dimensions at most 1333333 (so the 6-decimal rounding error
stays below one pixel), the conversion to YOLO form succeeds, and converting
back either rejects the box (the rounded box may collapse to empty) or yields
a box each of whose four coordinates differs from the original by at most one
pixel. -/
theorem yolo_roundtrip_amended (bxmin bymin bxmax bymax W H : ℤ)
    (hx0 : 0 ≤ bxmin) (hx : bxmin < bxmax) (hxW : bxmax ≤ W)
    (hy0 : 0 ≤ bymin) (hy : bymin < bymax) (hyH : bymax ≤ H)
    (hWB : W ≤ 1333333) (hHB : H ≤ 1333333) :
    ∃ q, yolo_coord_conversion (bxmin, bymin, bxmax, bymax) W H = some q ∧
      (yolo_to_pixels q W H = none ∨
        ∃ x1 y1 x2 y2, yolo_to_pixels q W H = some (x1, y1, x2, y2) ∧
          |x1 - bxmin| ≤ 1 ∧ |y1 - bymin| ≤ 1 ∧ |x2 - bxmax| ≤ 1 ∧ |y2 - bymax| ≤ 1) := by
  refine ⟨_, yolo_conv_inside bxmin bymin bxmax bymax W H hx0 hx hxW hy0 hy hyH, ?_⟩
  obtain ⟨hx1, hx2⟩ := roundtrip_axis bxmin bxmax W hx0 hx hxW hWB
  obtain ⟨hy1, hy2⟩ := roundtrip_axis bymin bymax H hy0 hy hyH hHB
  simp only [yolo_to_pixels]
  split_ifs with hdeg
  · left; rfl
  · right
    exact ⟨_, _, _, _, rfl, hx1, hy1, hx2, hy2⟩

/-- Witness for the amended C4 on the full box of a 100 by 100 image. -/
theorem yolo_roundtrip_amended_witness :
    ∃ q, yolo_coord_conversion (0, 0, 100, 100) 100 100 = some q ∧
      (yolo_to_pixels q 100 100 = none ∨
        ∃ x1 y1 x2 y2, yolo_to_pixels q 100 100 = some (x1, y1, x2, y2) ∧
          |x1 - 0| ≤ 1 ∧ |y1 - 0| ≤ 1 ∧ |x2 - 100| ≤ 1 ∧ |y2 - 100| ≤ 1) :=
  yolo_roundtrip_amended 0 0 100 100 100 100 (by decide) (by decide) (by decide)
    (by decide) (by decide) (by decide) (by decide) (by decide)

/-- Lowercasing a code point twice is the same as doing it once. -/
lemma lowerCode_lowerCode (c : ℕ) : lowerCode (lowerCode c) = lowerCode c := by
  unfold lowerCode
  split_ifs <;> omega

/-- Lowercasing a label twice is the same as doing it once. -/
lemma pyLower_pyLower (s : List ℕ) : pyLower (pyLower s) = pyLower s := by
  induction s with
  | nil => rfl
  | cons c t ih =>
    simp only [pyLower, List.map_cons] at *
    rw [lowerCode_lowerCode]
    exact congrArg (List.cons _) ih

/-- Lowercasing does not change whether a code point is whitespace. -/
lemma isSpaceCode_lowerCode (c : ℕ) : isSpaceCode (lowerCode c) = isSpaceCode c := by
  unfold isSpaceCode lowerCode
  rw [decide_eq_decide]
  split_ifs with h <;> omega

/-- Leading-whitespace removal commutes with lowercasing. -/
lemma dropWhile_isSpace_pyLower (s : List ℕ) :
    (pyLower s).dropWhile isSpaceCode = pyLower (s.dropWhile isSpaceCode) := by
  induction s with
  | nil => rfl
  | cons c t ih =>
    simp only [pyLower, List.map_cons, List.dropWhile_cons]
    rw [isSpaceCode_lowerCode]
    split_ifs with h
    · exact ih
    · rfl

/-- Lowercasing commutes with reversal. -/
lemma pyLower_reverse (s : List ℕ) : pyLower s.reverse = (pyLower s).reverse := by
  unfold pyLower
  exact List.map_reverse lowerCode s

/-- Stripping commutes with lowercasing. -/
lemma pyStrip_pyLower (s : List ℕ) : pyStrip (pyLower s) = pyLower (pyStrip s) := by
  unfold pyStrip
  rw [dropWhile_isSpace_pyLower, ← pyLower_reverse, dropWhile_isSpace_pyLower,
    ← pyLower_reverse]

/-- Dropping a satisfied prefix twice is the same as doing it once. -/
lemma dropWhile_idem (p : ℕ → Bool) (s : List ℕ) :
    (s.dropWhile p).dropWhile p = s.dropWhile p := by
  induction s with
  | nil => rfl
  | cons c t ih =>
    rw [List.dropWhile_cons]
    split_ifs with h
    · exact ih
    · rw [List.dropWhile_cons, if_neg h]

/-- The head of a nonempty dropWhile result does not satisfy the predicate. -/
lemma dropWhile_head_false (p : ℕ → Bool) :
    ∀ (s : List ℕ) (c : ℕ) (t : List ℕ), s.dropWhile p = c :: t → p c = false := by
  intro s
  induction s with
  | nil => intro c t h; cases h
  | cons x xs ih =>
    intro c t h
    rw [List.dropWhile_cons] at h
    split_ifs at h with hx
    · exact ih c t h
    · cases h
      simpa using hx

/-- dropWhile over a list ending in an unsatisfied element keeps that ending. -/
lemma dropWhile_append_singleton (p : ℕ → Bool) (c : ℕ) (h : p c = false) :
    ∀ xs : List ℕ, ∃ ys : List ℕ, (xs ++ [c]).dropWhile p = ys ++ [c] := by
  intro xs
  induction xs with
  | nil => exact ⟨[], by simp [List.dropWhile_cons, h]⟩
  | cons x t ih =>
    rw [List.cons_append, List.dropWhile_cons]
    split_ifs with hx
    · exact ih
    · exact ⟨x :: t, by simp⟩

/-- Stripping a stripped label changes nothing. -/
lemma pyStrip_idem (s : List ℕ) : pyStrip (pyStrip s) = pyStrip s := by
  rcases hs1 : s.dropWhile isSpaceCode with _ | ⟨c, t⟩
  · unfold pyStrip
    rw [hs1]
    simp
  · have hc : isSpaceCode c = false := dropWhile_head_false _ s c t hs1
    obtain ⟨ys, hys⟩ := dropWhile_append_singleton isSpaceCode c hc t.reverse
    have hX : pyStrip s = c :: ys.reverse := by
      unfold pyStrip
      rw [hs1]
      have hrev : (c :: t).reverse = t.reverse ++ [c] := by simp
      rw [hrev, hys]
      simp
    rw [hX]
    unfold pyStrip
    rw [List.dropWhile_cons, if_neg (by simp [hc])]
    have h1 : (c :: ys.reverse).reverse = ys ++ [c] := by simp
    rw [h1]
    have h2 : (ys ++ [c]).dropWhile isSpaceCode = ys ++ [c] := by
      conv_lhs => rw [← hys]
      rw [dropWhile_idem, hys]
    rw [h2]
    simp

/-- Claim C10: every detection the detector collaborator returns carries a
label that the output parser has already whitespace-stripped and lowercased:
the label is unchanged by a further strip or lower.  The catalog and policy
matching of the labeler therefore only ever sees normalized class names. -/
theorem detector_labels_normalized (ev : DetectorEvent) (d : Detection)
    (hd : d ∈ get_detections_from_image ev) :
    pyLower d.label = d.label ∧ pyStrip d.label = d.label := by
  cases ev with
  | success segments w h =>
    simp only [get_detections_from_image] at hd
    rw [List.mem_map] at hd
    obtain ⟨pd, hpd, rfl⟩ := hd
    simp only [parse_all_detections, List.mem_filterMap] at hpd
    obtain ⟨seg, hseg, hmap⟩ := hpd
    cases seg with
    | none => cases hmap
    | some m =>
      rw [Option.map_some'] at hmap
      cases hmap
      constructor
      · exact pyLower_pyLower _
      · rw [pyStrip_pyLower, pyStrip_idem]
  | initFailure => simp [get_detections_from_image] at hd
  | fileNotFound => simp [get_detections_from_image] at hd
  | loadFailure => simp [get_detections_from_image] at hd
  | noClassesRequested => simp [get_detections_from_image] at hd
  | inputProcFailure => simp [get_detections_from_image] at hd
  | generateFailure => simp [get_detections_from_image] at hd

/-- Witness for C10: a detection parsed from a raw label with stray spaces
and an uppercase letter. -/
theorem detector_labels_normalized_witness :
    (⟨strCodes "helmet", (100, 100, 500, 500), 448, 448⟩ : Detection) ∈
        get_detections_from_image
          (.success [some ⟨100, 100, 500, 500, strCodes " Helmet "⟩] 448 448) ∧
      pyLower (strCodes "helmet") = strCodes "helmet" ∧
      pyStrip (strCodes "helmet") = strCodes "helmet" :=
  ⟨by decide,
    (detector_labels_normalized
      (.success [some ⟨100, 100, 500, 500, strCodes " Helmet "⟩] 448 448)
      ⟨strCodes "helmet", (100, 100, 500, 500), 448, 448⟩ (by decide)).1,
    (detector_labels_normalized
      (.success [some ⟨100, 100, 500, 500, strCodes " Helmet "⟩] 448 448)
      ⟨strCodes "helmet", (100, 100, 500, 500), 448, 448⟩ (by decide)).2⟩

/-- Claim C1: evaluation at a failing input.  A detector-level failure (an
exception during generation) makes get_detections_from_image return the empty
list, byte-for-byte identical to a successful zero-detection response, so the
None test of line 105 never fires: the image is given an empty label file and
the Labeled outcome with the processed tally, and the error tally stays zero,
against the claimed Error outcome. -/
theorem detector_failure_not_distinguishable :
    get_detections_from_image .generateFailure = [] ∧
      get_detections_from_image (.success [] 448 448) = [] ∧
      (process_image
          ⟨true, none, none, some (get_detections_from_image .generateFailure), true, .ok⟩
          ⟨none, false⟩).outcome = .Labeled ∧
      (process_image
          ⟨true, none, none, some (get_detections_from_image .generateFailure), true, .ok⟩
          ⟨none, false⟩).tally.errors = 0 ∧
      (process_image
          ⟨true, none, none, some (get_detections_from_image .generateFailure), true, .ok⟩
          ⟨none, false⟩).tally.processed = 1 ∧
      (process_image
          ⟨true, none, none, some (get_detections_from_image .generateFailure), true, .ok⟩
          ⟨none, false⟩).state.labelFile = some [] := by
  refine ⟨rfl, rfl, ?_, ?_, ?_, ?_⟩ <;> rfl

/-- Claim C5: the existing label file is the sole idempotency marker — its
presence alone forces the SkippedIdempotent outcome whatever the rest of the
environment holds; when the image copy also exists nothing is written and the
state is unchanged; and re-running a batch of fully processed images performs
zero writes, skips every image idempotently, and tallies only skips. -/
theorem idempotent_rerun :
    (∀ (env : TaskEnv) (st : FsState), st.labelFile.isSome →
        (process_image env st).outcome = .SkippedIdempotent) ∧
    (∀ (env : TaskEnv) (st : FsState), st.labelFile.isSome → st.imgExists = true →
        (process_image env st).writes = [] ∧ (process_image env st).state = st ∧
          (process_image env st).tally = ⟨0, 0, 1, 0, 0, 0⟩) ∧
    (∀ tasks : List (TaskEnv × FsState),
        (∀ p ∈ tasks, p.2.labelFile.isSome ∧ p.2.imgExists = true) →
        (process_image_batch tasks).1 = ⟨0, 0, tasks.length, 0, 0, 0⟩ ∧
          ∀ r ∈ (process_image_batch tasks).2,
            r.outcome = .SkippedIdempotent ∧ r.writes = []) := by
  have key : ∀ (env : TaskEnv) (st : FsState), st.labelFile.isSome → st.imgExists = true →
      process_image env st = ⟨.SkippedIdempotent, ⟨0, 0, 1, 0, 0, 0⟩, st, []⟩ := by
    intro env st h hi
    unfold process_image
    rw [if_pos h, if_neg (by simp [hi])]
  refine ⟨?_, ?_, ?_⟩
  · intro env st h
    unfold process_image
    rw [if_pos h]
    split_ifs <;> rfl
  · intro env st h hi
    rw [key env st h hi]
    exact ⟨rfl, rfl, rfl⟩
  · intro tasks
    induction tasks with
    | nil =>
      intro _
      exact ⟨rfl, by intro r hr; cases hr⟩
    | cons p rest ih =>
      intro htasks
      obtain ⟨env, st⟩ := p
      have hp := htasks (env, st) (by simp)
      obtain ⟨t1, t2⟩ := ih (fun q hq => htasks q (List.mem_cons_of_mem _ hq))
      simp only [process_image_batch]
      rw [key env st hp.1 hp.2, t1]
      constructor
      · simp [Tally.add]
        omega
      · intro r hr
        rcases List.mem_cons.mp hr with hr | hr
        · subst hr
          exact ⟨rfl, rfl⟩
        · exact t2 r hr

/-- Witness for C5 on a batch of one fully processed image. -/
theorem idempotent_rerun_witness :
    (process_image_batch [(⟨true, none, none, some [], true, .ok⟩, ⟨some [], true⟩)]).1
        = ⟨0, 0, 1, 0, 0, 0⟩ ∧
      ∀ r ∈ (process_image_batch
          [(⟨true, none, none, some [], true, .ok⟩, ⟨some [], true⟩)]).2,
        r.outcome = .SkippedIdempotent ∧ r.writes = [] :=
  idempotent_rerun.2.2 [(⟨true, none, none, some [], true, .ok⟩, ⟨some [], true⟩)]
    (by intro p hp; rcases List.mem_singleton.mp hp with rfl; exact ⟨rfl, rfl⟩)

/-- Claim C6: on a write failure (label write or image copy raising), the
rollback removes every output file of the image (label file and image copy
both gone), the outcome is Error with the error tally incremented and the
processed tally untouched, and the batch recursion continues over the
remaining images. -/
theorem write_failure_rollback :
    (∀ (env : TaskEnv) (st : FsState) (dets : List Detection) (leftover : Bool),
        st.labelFile = none → env.sourceExists = true → env.detections = some dets →
        (env.write = .labelRaises leftover ∨ env.write = .copyRaises leftover) →
        (process_image env st).outcome = .Error ∧
          (process_image env st).tally.errors = 1 ∧
          (process_image env st).tally.processed = 0 ∧
          (process_image env st).tally.skipped = 0 ∧
          (process_image env st).state.labelFile = none ∧
          (process_image env st).state.imgExists = false) ∧
    (∀ (env : TaskEnv) (st : FsState) (rest : List (TaskEnv × FsState)),
        process_image_batch ((env, st) :: rest) =
          ((process_image env st).tally.add (process_image_batch rest).1,
            process_image env st :: (process_image_batch rest).2)) := by
  constructor
  · intro env st dets leftover hlbl hsrc hdet hw
    unfold process_image
    rw [if_neg (by simp [hlbl]), if_neg (by simp [hsrc]), hdet]
    rcases hw with hw | hw <;> rw [hw] <;> exact ⟨rfl, rfl, rfl, rfl, rfl, rfl⟩
  · intro env st rest
    rfl

/-- Witness for C6 at a concrete failing label write. -/
theorem write_failure_rollback_witness :
    (process_image ⟨true, none, none, some [], true, .labelRaises true⟩
        ⟨none, false⟩).outcome = .Error ∧
      (process_image ⟨true, none, none, some [], true, .labelRaises true⟩
          ⟨none, false⟩).tally.errors = 1 ∧
      (process_image ⟨true, none, none, some [], true, .labelRaises true⟩
          ⟨none, false⟩).tally.processed = 0 ∧
      (process_image ⟨true, none, none, some [], true, .labelRaises true⟩
          ⟨none, false⟩).tally.skipped = 0 ∧
      (process_image ⟨true, none, none, some [], true, .labelRaises true⟩
          ⟨none, false⟩).state.labelFile = none ∧
      (process_image ⟨true, none, none, some [], true, .labelRaises true⟩
          ⟨none, false⟩).state.imgExists = false :=
  write_failure_rollback.1 ⟨true, none, none, some [], true, .labelRaises true⟩
    ⟨none, false⟩ [] true rfl rfl rfl (Or.inl rfl)

/-- A hit of classMapAux is at or beyond the starting index. -/
lemma classMapAux_ge (l : List (List ℕ)) :
    ∀ (idx : ℕ) (name : List ℕ) (i : ℕ), classMapAux l idx name = some i → idx ≤ i := by
  induction l with
  | nil => intro idx name i h; cases h
  | cons c rest ih =>
    intro idx name i h
    unfold classMapAux at h
    split_ifs at h with hc
    · injection h with h
      omega
    · have := ih (idx + 1) name i h
      omega

/-- Two names mapping to one id are the same name. -/
lemma classMapAux_inj (l : List (List ℕ)) :
    ∀ (idx : ℕ) (a b : List ℕ) (i : ℕ),
      classMapAux l idx a = some i → classMapAux l idx b = some i → a = b := by
  induction l with
  | nil => intro idx a b i h; cases h
  | cons c rest ih =>
    intro idx a b i ha hb
    unfold classMapAux at ha hb
    split_ifs at ha hb with hca hcb
    · exact hca.symm.trans hcb
    · injection ha with ha1
      have := classMapAux_ge rest (idx + 1) b i hb
      omega
    · injection hb with hb1
      have := classMapAux_ge rest (idx + 1) a i ha
      omega
    · exact ih (idx + 1) a b i ha hb

/-- Distinct class names have distinct class ids. -/
lemma CLASS_MAP_inj_ne (a b : List ℕ) (i j : ℕ) (ha : CLASS_MAP a = some i)
    (hb : CLASS_MAP b = some j) (hab : a ≠ b) : i ≠ j := by
  intro hij
  subst hij
  exact hab (classMapAux_inj CLASSES 0 a b i ha hb)

/-- The success path of process_image in closed form. -/
lemma process_image_ok (env : TaskEnv) (st : FsState) (dets : List Detection)
    (hlbl : st.labelFile = none) (hsrc : env.sourceExists = true)
    (hdet : env.detections = some dets) (hw : env.write = .ok) :
    process_image env st =
      ⟨.Labeled,
        ⟨1, 1, 0, 0, if (buildLines env dets).1.isEmpty then 1 else 0,
          requiredMissingCount env (buildLines env dets).2⟩,
        ⟨some (buildLines env dets).1, true⟩,
        [.writeLabel (buildLines env dets).1, .copyImage]⟩ := by
  unfold process_image
  rw [if_neg (by simp [hlbl]), if_neg (by simp [hsrc]), hdet, hw]

/-- Claim C9: in a required-pair group, an image whose detector response is a
single successfully converted detection of one of the two required classes
gets a one-line label file, the Labeled outcome with the processed tally
incremented, and the required-missing warning — not the error tally. -/
theorem required_pair_partial_detection
    (env : TaskEnv) (st : FsState) (d : Detection) (c1 c2 : List ℕ) (i1 i2 : ℕ)
    (pb : ℤ × ℤ × ℤ × ℤ) (yc : ℚ × ℚ × ℚ × ℚ)
    (hexp : env.expectedLabel = none)
    (hpair : env.requiredPair = some (c1, c2))
    (hne : c1 ≠ c2)
    (hi1 : CLASS_MAP c1 = some i1)
    (hi2 : CLASS_MAP c2 = some i2)
    (hdet : env.detections = some [d])
    (hlab : d.label = c1 ∨ d.label = c2)
    (hpb : paligemma_to_pixels d.box d.img_width d.img_height = some pb)
    (hyc : yolo_coord_conversion pb d.img_width d.img_height = some yc)
    (hlbl : st.labelFile = none)
    (hsrc : env.sourceExists = true)
    (hw : env.write = .ok) :
    (process_image env st).outcome = .Labeled ∧
      (∃ line, (process_image env st).state.labelFile = some [line]) ∧
      (process_image env st).tally.processed = 1 ∧
      (process_image env st).tally.required_missing_warnings = 1 ∧
      (process_image env st).tally.errors = 0 := by
  have hne12 : i1 ≠ i2 := CLASS_MAP_inj_ne c1 c2 i1 i2 hi1 hi2 hne
  have hres : resolveLabel env d.label = some d.label := by
    simp only [resolveLabel, hexp, hpair]
    exact if_pos hlab
  rcases hlab with hlab | hlab
  · have hres1 : resolveLabel env d.label = some c1 := by rw [hres, hlab]
    have hbuilt : buildLines env [d] = ([(i1, yc)], [i1]) := by
      simp only [buildLines, List.foldl_cons, List.foldl_nil, stepDet, hres1, hi1, hpb,
        hyc, List.nil_append]
    have hreq : requiredMissingCount env [i1] = 1 := by
      simp only [requiredMissingCount, hpair, hi1, hi2]
      rw [if_neg (by rintro ⟨-, h2⟩; rw [List.mem_singleton] at h2; exact hne12 h2.symm)]
    rw [process_image_ok env st [d] hlbl hsrc hdet hw, hbuilt]
    exact ⟨rfl, ⟨(i1, yc), rfl⟩, rfl, hreq, rfl⟩
  · have hres2 : resolveLabel env d.label = some c2 := by rw [hres, hlab]
    have hbuilt : buildLines env [d] = ([(i2, yc)], [i2]) := by
      simp only [buildLines, List.foldl_cons, List.foldl_nil, stepDet, hres2, hi2, hpb,
        hyc, List.nil_append]
    have hreq : requiredMissingCount env [i2] = 1 := by
      simp only [requiredMissingCount, hpair, hi1, hi2]
      rw [if_neg (by rintro ⟨h1, -⟩; rw [List.mem_singleton] at h1; exact hne12 h1)]
    rw [process_image_ok env st [d] hlbl hsrc hdet hw, hbuilt]
    exact ⟨rfl, ⟨(i2, yc), rfl⟩, rfl, hreq, rfl⟩

/-- Witness for C9: a helmet-glove group whose detector response is a single
helmet detection covering a region of a 1000 by 1000 image. -/
theorem required_pair_partial_detection_witness :
    (process_image
        ⟨true, none, some (strCodes "helmet", strCodes "glove"),
          some [⟨strCodes "helmet", (100, 100, 500, 500), 1000, 1000⟩], true, .ok⟩
        ⟨none, false⟩).outcome = .Labeled ∧
      (∃ line, (process_image
          ⟨true, none, some (strCodes "helmet", strCodes "glove"),
            some [⟨strCodes "helmet", (100, 100, 500, 500), 1000, 1000⟩], true, .ok⟩
          ⟨none, false⟩).state.labelFile = some [line]) ∧
      (process_image
          ⟨true, none, some (strCodes "helmet", strCodes "glove"),
            some [⟨strCodes "helmet", (100, 100, 500, 500), 1000, 1000⟩], true, .ok⟩
          ⟨none, false⟩).tally.processed = 1 ∧
      (process_image
          ⟨true, none, some (strCodes "helmet", strCodes "glove"),
            some [⟨strCodes "helmet", (100, 100, 500, 500), 1000, 1000⟩], true, .ok⟩
          ⟨none, false⟩).tally.required_missing_warnings = 1 ∧
      (process_image
          ⟨true, none, some (strCodes "helmet", strCodes "glove"),
            some [⟨strCodes "helmet", (100, 100, 500, 500), 1000, 1000⟩], true, .ok⟩
          ⟨none, false⟩).tally.errors = 0 :=
  required_pair_partial_detection
    ⟨true, none, some (strCodes "helmet", strCodes "glove"),
      some [⟨strCodes "helmet", (100, 100, 500, 500), 1000, 1000⟩], true, .ok⟩
    ⟨none, false⟩
    ⟨strCodes "helmet", (100, 100, 500, 500), 1000, 1000⟩
    (strCodes "helmet") (strCodes "glove") 1 2
    (100, 100, 500, 500) (3/10, 3/10, 2/5, 2/5)
    rfl rfl (by decide) (by decide) (by decide) rfl (Or.inl rfl)
    (by norm_num [paligemma_to_pixels, pyRound])
    (by norm_num [yolo_coord_conversion, clamp01, r6, pyRound])
    rfl rfl rfl

/-- Witness for the amended C8 at the concrete group size 3. -/
theorem split_min_val_test_amended_witness :
    (3 : ℤ) - ⌈((3 : ℕ) : ℚ) * TRAIN_RATIO⌉ - ⌈((3 : ℕ) : ℚ) * VAL_RATIO⌉ ≤ 0 ∧
      1 ≤ (split_group_counts 3).2.1 ∧ 1 ≤ (split_group_counts 3).2.2 :=
  ⟨by rw [ceil_train_ratio, ceil_val_ratio]; decide,
    split_min_val_test_amended 3 (by norm_num) (by norm_num) (by norm_num) (by norm_num)
      (Or.inr (by rw [ceil_train_ratio, ceil_val_ratio]; decide))⟩
